import Mathlib

/-!
A verification development for the MiKTeX Package Creator (`mpc.cpp`), the
repository-assembly command line tool of the MiKTeX distribution.  The data
model and the operations of the repository pipeline are embedded shallowly;
theorems settle the specification claims against this embedding.

Conventions used throughout:

* `MD5Builder` is a streaming hash whose final digest is a fixed deterministic
  function of the byte stream fed to it.  We identify a digest produced by a
  builder with that byte stream: two runs feed equal streams iff the code
  computes equal digests.
* A file digest (the 16-byte content hash of one file) is an opaque value of
  type `List Nat`.
* Paths are ASCII strings; one character corresponds to one byte.
-/

namespace Mpc

/-- Modelled from the spec: the character step of `dos_normalize` — forward
slashes become backslashes and ASCII letters are case-folded (the DOS rule
set used by `PathName::ConvertToDos` and `less_icase_dos`, library code that
is not under `src/`). -/
def dosChar (c : Char) : Char :=
  if c = '/' then '\\' else c.toLower

/-- Modelled from the spec: `dos_normalize(path)` — replace forward slashes
with backslashes and case-fold per the DOS rule set. -/
def dosNormalize (s : String) : String :=
  ⟨s.data.map dosChar⟩

/-- An opaque 16-byte file content digest. -/
abbrev FileDigest := List Nat

/-- The bytes that `MD5Builder::Update` receives for a path string. -/
def pathBytes (s : String) : List Nat :=
  s.data.map Char.toNat

/-- The strict `less_icase_dos` order on entries of a `FileDigestTable`:
entries compare by their DOS-normalized keys. -/
def entLt (a b : String × FileDigest) : Prop :=
  dosNormalize a.1 < dosNormalize b.1

instance : DecidableRel entLt := fun a b => by
  unfold entLt; infer_instance

theorem entLt_asymm {a b : String × FileDigest} (h : entLt a b) : ¬ entLt b a :=
  lt_asymm h

instance : IsAntisymm (String × FileDigest) entLt :=
  ⟨fun _ _ h1 h2 => absurd h2 (entLt_asymm h1)⟩

instance : IsTrans (String × FileDigest) entLt :=
  ⟨fun _ _ _ h1 h2 => lt_trans h1 h2⟩

/-- A `FileDigestTable` (`std::map<std::string, MD5, less_icase_dos>`) is
modelled as an association list; the `std::map` invariant is that the list is
strictly sorted by `entLt`. -/
abbrev FileDigestTable := List (String × FileDigest)

/-- `PackageCreator::GetTdsDigest`: iterate the table entries in order; for
each entry, dosify the path and feed its bytes, then the 16 digest bytes,
into the MD5 builder.  The resulting digest is identified with the
accumulated byte stream. -/
def GetTdsDigest (fileDigests : FileDigestTable) : List Nat :=
  fileDigests.foldl (fun acc p => acc ++ pathBytes (dosNormalize p.1) ++ p.2) []

/-- `std::map::operator[]` plus assignment (`fileDigests[lpszRelPath] =
digest` in `MD5WildCopy`): walk the sorted entry list; an equivalent key
(equal after DOS normalization) keeps its key and has its value replaced,
otherwise the new entry goes to its ordered position. -/
def mapInsert (e : String × FileDigest) : FileDigestTable → FileDigestTable
  | [] => [e]
  | f :: t =>
    if dosNormalize e.1 = dosNormalize f.1 then (f.1, e.2) :: t
    else if dosNormalize e.1 < dosNormalize f.1 then e :: f :: t
    else f :: mapInsert e t

/-- Building the table by repeated insertion in the given order. -/
def tableOfInsertions (l : List (String × FileDigest)) : FileDigestTable :=
  l.foldl (fun t e => mapInsert e t) []

/-- The inserted paths are pairwise distinct as DOS-normalized keys. -/
def KeysDistinct (l : List (String × FileDigest)) : Prop :=
  (l.map fun e => dosNormalize e.1).Nodup

instance (l : List (String × FileDigest)) : Decidable (KeysDistinct l) := by
  unfold KeysDistinct; infer_instance

theorem mapInsert_perm (e : String × FileDigest) :
    ∀ t : FileDigestTable, (∀ f ∈ t, dosNormalize e.1 ≠ dosNormalize f.1) →
      List.Perm (mapInsert e t) (e :: t)
  | [], _ => List.Perm.refl _
  | f :: t, h => by
    have hne : dosNormalize e.1 ≠ dosNormalize f.1 := h f (List.mem_cons_self f t)
    by_cases hlt : dosNormalize e.1 < dosNormalize f.1
    · simp [mapInsert, hne, hlt]
    · have ih := mapInsert_perm e t (fun g hg => h g (List.mem_cons_of_mem f hg))
      simp only [mapInsert, if_neg hne, if_neg hlt]
      exact (ih.cons f).trans (List.Perm.swap _ _ _)

theorem mapInsert_key_mem (e : String × FileDigest) :
    ∀ t : FileDigestTable, ∀ x ∈ mapInsert e t, x.1 = e.1 ∨ x.1 ∈ t.map Prod.fst := by
  intro t
  induction t with
  | nil =>
    intro x hx
    simp only [mapInsert, List.mem_singleton] at hx
    exact Or.inl (by rw [hx])
  | cons f t ih =>
    intro x hx
    simp only [mapInsert] at hx
    by_cases heq : dosNormalize e.1 = dosNormalize f.1
    · rw [if_pos heq, List.mem_cons] at hx
      rcases hx with hx | hx
      · refine Or.inr ?_
        rw [hx]
        show f.1 ∈ List.map Prod.fst (f :: t)
        exact List.mem_map_of_mem Prod.fst (List.mem_cons_self f t)
      · exact Or.inr (List.mem_map_of_mem Prod.fst (List.mem_cons_of_mem f hx))
    · rw [if_neg heq] at hx
      by_cases hlt : dosNormalize e.1 < dosNormalize f.1
      · rw [if_pos hlt, List.mem_cons] at hx
        rcases hx with hx | hx
        · exact Or.inl (by rw [hx])
        · exact Or.inr (List.mem_map_of_mem Prod.fst hx)
      · rw [if_neg hlt, List.mem_cons] at hx
        rcases hx with hx | hx
        · exact Or.inr (by rw [hx]; exact List.mem_map_of_mem _ (List.mem_cons_self f t))
        · rcases ih x hx with h | h
          · exact Or.inl h
          · exact Or.inr (by rw [List.map_cons]; exact List.mem_cons_of_mem _ h)

theorem mapInsert_sorted (e : String × FileDigest) :
    ∀ t : FileDigestTable, List.Sorted entLt t → List.Sorted entLt (mapInsert e t)
  | [], _ => List.sorted_singleton e
  | f :: t, h => by
    rw [List.sorted_cons] at h
    obtain ⟨hf, ht⟩ := h
    by_cases heq : dosNormalize e.1 = dosNormalize f.1
    · simp only [mapInsert, if_pos heq]
      rw [List.sorted_cons]
      exact ⟨fun x hx => hf x hx, ht⟩
    · by_cases hlt : dosNormalize e.1 < dosNormalize f.1
      · simp only [mapInsert, if_neg heq, if_pos hlt]
        rw [List.sorted_cons]
        refine ⟨fun x hx => ?_, ?_⟩
        · rcases List.mem_cons.mp hx with hx | hx
          · rw [hx]; exact hlt
          · exact lt_trans hlt (hf x hx)
        · rw [List.sorted_cons]; exact ⟨hf, ht⟩
      · simp only [mapInsert, if_neg heq, if_neg hlt]
        rw [List.sorted_cons]
        refine ⟨fun x hx => ?_, mapInsert_sorted e t ht⟩
        have hfe : dosNormalize f.1 < dosNormalize e.1 :=
          lt_of_le_of_ne (not_lt.mp hlt) (Ne.symm heq)
        rcases mapInsert_key_mem e t x hx with hk | hk
        · show dosNormalize f.1 < dosNormalize x.1
          rw [hk]; exact hfe
        · rcases List.mem_map.mp hk with ⟨y, hy, hyx⟩
          show dosNormalize f.1 < dosNormalize x.1
          rw [← hyx]; exact hf y hy

theorem foldl_mapInsert_sorted :
    ∀ (l t : List (String × FileDigest)), List.Sorted entLt t →
      List.Sorted entLt (l.foldl (fun t e => mapInsert e t) t)
  | [], _, h => h
  | e :: l, t, h => foldl_mapInsert_sorted l (mapInsert e t) (mapInsert_sorted e t h)

theorem foldl_mapInsert_perm :
    ∀ (l t : List (String × FileDigest)),
      ((t ++ l).map fun e => dosNormalize e.1).Nodup →
      List.Perm (l.foldl (fun t e => mapInsert e t) t) (t ++ l)
  | [], t, _ => by simp
  | e :: l, t, h => by
    have hkey : ∀ f ∈ t, dosNormalize e.1 ≠ dosNormalize f.1 := by
      intro f hf hef
      rw [List.map_append, List.nodup_append] at h
      refine h.2.2 (List.mem_map_of_mem _ hf) ?_
      rw [List.map_cons, ← hef]
      exact List.mem_cons_self _ _
    have hins : List.Perm (mapInsert e t) (e :: t) := mapInsert_perm e t hkey
    have hnodup2 : (((mapInsert e t) ++ l).map fun e => dosNormalize e.1).Nodup := by
      have hp : List.Perm (((mapInsert e t) ++ l).map fun e => dosNormalize e.1)
          ((t ++ e :: l).map fun e => dosNormalize e.1) := by
        refine List.Perm.map _ ?_
        exact (hins.append_right l).trans (List.perm_middle.symm)
      exact hp.nodup_iff.mpr h
    have ih := foldl_mapInsert_perm l (mapInsert e t) hnodup2
    simp only [List.foldl_cons]
    refine ih.trans ?_
    exact (hins.append_right l).trans (List.perm_middle.symm)

/-- C1: `GetTdsDigest` iterates the map entries in the case-insensitive
DOS-ordered key order, feeding the DOS-normalized path bytes followed by the
digest bytes per entry; consequently two tables with equal entry sets (equal
as sorted maps: permutations of each other) yield equal digests, and building
the table by inserting the same entries in any order yields the same
digest. -/
theorem GetTdsDigest_order_independent :
    (∀ l₁ l₂ : FileDigestTable, List.Sorted entLt l₁ → List.Sorted entLt l₂ →
        List.Perm l₁ l₂ → GetTdsDigest l₁ = GetTdsDigest l₂) ∧
    (∀ l₁ l₂ : List (String × FileDigest), KeysDistinct l₁ → List.Perm l₁ l₂ →
        GetTdsDigest (tableOfInsertions l₁) = GetTdsDigest (tableOfInsertions l₂)) := by
  constructor
  · intro l₁ l₂ h1 h2 hp
    rw [List.eq_of_perm_of_sorted hp h1 h2]
  · intro l₁ l₂ hk hp
    have e1 : List.Perm (tableOfInsertions l₁) l₁ := by
      simpa using foldl_mapInsert_perm l₁ [] (by simpa [KeysDistinct] using hk)
    have hk2 : KeysDistinct l₂ := ((hp.map _).nodup_iff).mp hk
    have e2 : List.Perm (tableOfInsertions l₂) l₂ := by
      simpa using foldl_mapInsert_perm l₂ [] (by simpa [KeysDistinct] using hk2)
    have s1 : List.Sorted entLt (tableOfInsertions l₁) :=
      foldl_mapInsert_sorted l₁ [] (List.sorted_nil)
    have s2 : List.Sorted entLt (tableOfInsertions l₂) :=
      foldl_mapInsert_sorted l₂ [] (List.sorted_nil)
    rw [List.eq_of_perm_of_sorted ((e1.trans hp).trans e2.symm) s1 s2]

/-- Witness for C1 at a concrete pair of insertion orders. -/
theorem GetTdsDigest_order_independent_witness :
    GetTdsDigest (tableOfInsertions
        [("texmf/tex/B.sty", [1, 2]), ("texmf/doc/a.pdf", [3])]) =
      GetTdsDigest (tableOfInsertions
        [("texmf/doc/a.pdf", [3]), ("texmf/tex/B.sty", [1, 2])]) :=
  GetTdsDigest_order_independent.2 _ _ (by decide) (List.Perm.swap _ _ _)

/-! ## TDS file classification (`CollectFiles`, claim C3) -/

/-- `PathName::ComparePrefixes(p1, p2, n) == 0` (library code not under
`src/`): the first `n` characters of the two paths agree under the DOS rule
set (slash direction and ASCII case are ignored); modelled from the spec's
DOS rule set. -/
def ComparePrefixesEq (p1 p2 : String) (n : Nat) : Bool :=
  decide ((p1.data.take n).map dosChar = (p2.data.take n).map dosChar)

/-- `PackageCreator::IsInTeXMFDirectory(relPath, subDir)`: compare the
prefixes of `texmfPfx/subDir` and `relPath` over the length of
`texmfPfx/subDir`. -/
def IsInTeXMFDirectory (texmfPfx relPath subDir : String) : Bool :=
  ComparePrefixesEq (texmfPfx ++ "/" ++ subDir) relPath
    (texmfPfx ++ "/" ++ subDir).length

/-- A directory subtree as enumerated by `DirectoryLister`: a regular file
with its size, or a directory with its entries in listing order. -/
inductive FSEntry where
  | file (name : String) (size : Nat)
  | dir (name : String) (entries : List FSEntry)
deriving Repr

/-- The six by-reference accumulators of `PackageCreator::CollectFiles`. -/
structure CollectAcc where
  runFiles : List String := []
  sizeRunFiles : Nat := 0
  docFiles : List String := []
  sizeDocFiles : Nat := 0
  sourceFiles : List String := []
  sizeSourceFiles : Nat := 0
deriving Repr, DecidableEq

/-- `relPath(subDir); relPath /= dirEntry.name`: path concatenation, where an
empty left-hand side yields the name alone. -/
def joinRel (subDir name : String) : String :=
  if subDir = "" then name else subDir ++ "/" ++ name

/-- The classification arm of `CollectFiles` for one regular file. -/
def classifyFile (texmfPfx relPath : String) (size : Nat) (acc : CollectAcc) :
    CollectAcc :=
  if IsInTeXMFDirectory texmfPfx relPath "doc" then
    { acc with docFiles := acc.docFiles ++ [relPath],
               sizeDocFiles := acc.sizeDocFiles + size }
  else if IsInTeXMFDirectory texmfPfx relPath "source" then
    { acc with sourceFiles := acc.sourceFiles ++ [relPath],
               sizeSourceFiles := acc.sizeSourceFiles + size }
  else
    { acc with runFiles := acc.runFiles ++ [relPath],
               sizeRunFiles := acc.sizeRunFiles + size }

mutual

/-- `PackageCreator::CollectFiles`, the body of the directory walk for one
directory entry: recurse into sub-directories, classify regular files. -/
def collectEntry (texmfPfx subDir : String) (acc : CollectAcc) :
    FSEntry → CollectAcc
  | .file name size => classifyFile texmfPfx (joinRel subDir name) size acc
  | .dir name entries => collectList texmfPfx (joinRel subDir name) acc entries

/-- `PackageCreator::CollectFiles`, the `DirectoryLister` loop over the
entries of one directory. -/
def collectList (texmfPfx subDir : String) (acc : CollectAcc) :
    List FSEntry → CollectAcc
  | [] => acc
  | e :: es => collectList texmfPfx subDir (collectEntry texmfPfx subDir acc e) es

end

/-- `PackageCreator::CollectPackage`: clear the six accumulators, then
`CollectSubTree(path, "Files")`, i.e. walk the `Files/` subtree with an empty
initial relative path. -/
def CollectPackageFiles (texmfPfx : String) (filesTree : List FSEntry) :
    CollectAcc :=
  collectList texmfPfx "" {} filesTree

/-- The spec's classification predicate as written: `starts_with_texmf(rel,
sub)` is true iff `rel` begins with `texmf/<sub>/` (with the trailing
separator). -/
def specTexmfSub (relPath sub : String) : Bool :=
  ("texmf/" ++ sub ++ "/").data.isPrefixOf relPath.data

theorem classifyFile_mem (texmfPfx relPath : String) (size : Nat)
    (acc : CollectAcc) :
    (∀ p ∈ (classifyFile texmfPfx relPath size acc).docFiles,
        p ∈ acc.docFiles ∨ IsInTeXMFDirectory texmfPfx p "doc" = true) ∧
    (∀ p ∈ (classifyFile texmfPfx relPath size acc).sourceFiles,
        p ∈ acc.sourceFiles ∨ (IsInTeXMFDirectory texmfPfx p "doc" = false ∧
          IsInTeXMFDirectory texmfPfx p "source" = true)) ∧
    (∀ p ∈ (classifyFile texmfPfx relPath size acc).runFiles,
        p ∈ acc.runFiles ∨ (IsInTeXMFDirectory texmfPfx p "doc" = false ∧
          IsInTeXMFDirectory texmfPfx p "source" = false)) := by
  cases hd : IsInTeXMFDirectory texmfPfx relPath "doc" with
  | true =>
    refine ⟨?_, ?_, ?_⟩ <;> intro p hp <;>
      simp only [classifyFile, hd, if_true, List.mem_append,
        List.mem_singleton] at hp
    · rcases hp with hp | hp
      · exact Or.inl hp
      · exact Or.inr (by rw [hp]; exact hd)
    · exact Or.inl hp
    · exact Or.inl hp
  | false =>
    cases hs : IsInTeXMFDirectory texmfPfx relPath "source" with
    | true =>
      refine ⟨?_, ?_, ?_⟩ <;> intro p hp <;>
        simp only [classifyFile, hd, hs, Bool.false_eq_true, if_false, if_true,
          List.mem_append, List.mem_singleton] at hp
      · exact Or.inl hp
      · rcases hp with hp | hp
        · exact Or.inl hp
        · exact Or.inr (by rw [hp]; exact ⟨hd, hs⟩)
      · exact Or.inl hp
    | false =>
      refine ⟨?_, ?_, ?_⟩ <;> intro p hp <;>
        simp only [classifyFile, hd, hs, Bool.false_eq_true, if_false,
          List.mem_append, List.mem_singleton] at hp
      · exact Or.inl hp
      · exact Or.inl hp
      · rcases hp with hp | hp
        · exact Or.inl hp
        · exact Or.inr (by rw [hp]; exact ⟨hd, hs⟩)

mutual

theorem collectEntry_classified (texmfPfx subDir : String) (acc : CollectAcc)
    (e : FSEntry) :
    (∀ p ∈ (collectEntry texmfPfx subDir acc e).docFiles,
        p ∈ acc.docFiles ∨ IsInTeXMFDirectory texmfPfx p "doc" = true) ∧
    (∀ p ∈ (collectEntry texmfPfx subDir acc e).sourceFiles,
        p ∈ acc.sourceFiles ∨ (IsInTeXMFDirectory texmfPfx p "doc" = false ∧
          IsInTeXMFDirectory texmfPfx p "source" = true)) ∧
    (∀ p ∈ (collectEntry texmfPfx subDir acc e).runFiles,
        p ∈ acc.runFiles ∨ (IsInTeXMFDirectory texmfPfx p "doc" = false ∧
          IsInTeXMFDirectory texmfPfx p "source" = false)) :=
  match e with
  | .file name size => by
    simpa only [collectEntry] using
      classifyFile_mem texmfPfx (joinRel subDir name) size acc
  | .dir name entries => by
    simpa only [collectEntry] using
      collectList_classified texmfPfx (joinRel subDir name) acc entries

theorem collectList_classified (texmfPfx subDir : String) (acc : CollectAcc)
    (es : List FSEntry) :
    (∀ p ∈ (collectList texmfPfx subDir acc es).docFiles,
        p ∈ acc.docFiles ∨ IsInTeXMFDirectory texmfPfx p "doc" = true) ∧
    (∀ p ∈ (collectList texmfPfx subDir acc es).sourceFiles,
        p ∈ acc.sourceFiles ∨ (IsInTeXMFDirectory texmfPfx p "doc" = false ∧
          IsInTeXMFDirectory texmfPfx p "source" = true)) ∧
    (∀ p ∈ (collectList texmfPfx subDir acc es).runFiles,
        p ∈ acc.runFiles ∨ (IsInTeXMFDirectory texmfPfx p "doc" = false ∧
          IsInTeXMFDirectory texmfPfx p "source" = false)) :=
  match es with
  | [] => by
    exact ⟨fun p hp => Or.inl hp, fun p hp => Or.inl hp, fun p hp => Or.inl hp⟩
  | e :: es => by
    have h1 := collectEntry_classified texmfPfx subDir acc e
    have h2 := collectList_classified texmfPfx subDir
      (collectEntry texmfPfx subDir acc e) es
    refine ⟨?_, ?_, ?_⟩ <;> intro p hp
    · rcases h2.1 p hp with h | h
      · exact h1.1 p h
      · exact Or.inr h
    · rcases h2.2.1 p hp with h | h
      · exact h1.2.1 p h
      · exact Or.inr h
    · rcases h2.2.2 p hp with h | h
      · exact h1.2.2 p h
      · exact Or.inr h

end

/-- C3 counterexample: with the file tree `Files/texmf/doctor/x.sty`, the
code classifies `texmf/doctor/x.sty` as a doc file (the prefix comparison
covers only the nine characters of `texmf/doc` and does not require a
following separator), although the path does not start with `texmf/doc/`,
under which the claim's rule would make it a run file. -/
theorem collectFiles_counterexample :
    (CollectPackageFiles "texmf"
        [.dir "texmf" [.dir "doctor" [.file "x.sty" 3]]]).docFiles
          = ["texmf/doctor/x.sty"] ∧
      (CollectPackageFiles "texmf"
        [.dir "texmf" [.dir "doctor" [.file "x.sty" 3]]]).runFiles = [] ∧
      specTexmfSub "texmf/doctor/x.sty" "doc" = false := by
  refine ⟨by decide, by decide, by decide⟩

/-- C3 (amended): every file collected from a staging directory's `Files/`
subtree is appended to exactly one of the three lists, and the choice is
decided by `IsInTeXMFDirectory`: doc if the first `|texmf/doc|` characters of
the path equal `texmf/doc` under the case- and slash-insensitive DOS
comparison (a following separator is not required), else source under the
analogous `texmf/source` comparison, else run; hence no path appears in two
lists. -/
theorem collectFiles_partition (tree : List FSEntry) :
    (∀ p ∈ (CollectPackageFiles "texmf" tree).docFiles,
        IsInTeXMFDirectory "texmf" p "doc" = true) ∧
    (∀ p ∈ (CollectPackageFiles "texmf" tree).sourceFiles,
        IsInTeXMFDirectory "texmf" p "doc" = false ∧
          IsInTeXMFDirectory "texmf" p "source" = true) ∧
    (∀ p ∈ (CollectPackageFiles "texmf" tree).runFiles,
        IsInTeXMFDirectory "texmf" p "doc" = false ∧
          IsInTeXMFDirectory "texmf" p "source" = false) ∧
    (∀ p, ¬(p ∈ (CollectPackageFiles "texmf" tree).docFiles ∧
        p ∈ (CollectPackageFiles "texmf" tree).sourceFiles)) ∧
    (∀ p, ¬(p ∈ (CollectPackageFiles "texmf" tree).docFiles ∧
        p ∈ (CollectPackageFiles "texmf" tree).runFiles)) ∧
    (∀ p, ¬(p ∈ (CollectPackageFiles "texmf" tree).sourceFiles ∧
        p ∈ (CollectPackageFiles "texmf" tree).runFiles)) := by
  have h := collectList_classified "texmf" "" {} tree
  have hdoc : ∀ p ∈ (CollectPackageFiles "texmf" tree).docFiles,
      IsInTeXMFDirectory "texmf" p "doc" = true := by
    intro p hp
    rcases h.1 p hp with hcontra | h
    · exact absurd hcontra (List.not_mem_nil p)
    · exact h
  have hsrc : ∀ p ∈ (CollectPackageFiles "texmf" tree).sourceFiles,
      IsInTeXMFDirectory "texmf" p "doc" = false ∧
        IsInTeXMFDirectory "texmf" p "source" = true := by
    intro p hp
    rcases h.2.1 p hp with hcontra | h
    · exact absurd hcontra (List.not_mem_nil p)
    · exact h
  have hrun : ∀ p ∈ (CollectPackageFiles "texmf" tree).runFiles,
      IsInTeXMFDirectory "texmf" p "doc" = false ∧
        IsInTeXMFDirectory "texmf" p "source" = false := by
    intro p hp
    rcases h.2.2 p hp with hcontra | h
    · exact absurd hcontra (List.not_mem_nil p)
    · exact h
  refine ⟨hdoc, hsrc, hrun, ?_, ?_, ?_⟩
  · rintro p ⟨h1, h2⟩
    have hc := hdoc p h1
    rw [(hsrc p h2).1] at hc
    exact Bool.false_ne_true hc
  · rintro p ⟨h1, h2⟩
    have hc := hdoc p h1
    rw [(hrun p h2).1] at hc
    exact Bool.false_ne_true hc
  · rintro p ⟨h1, h2⟩
    have hc := (hsrc p h1).2
    rw [(hrun p h2).2] at hc
    exact Bool.false_ne_true hc

/-- Witness for C3's amended theorem on a concrete staging tree. -/
theorem collectFiles_partition_witness :
    IsInTeXMFDirectory "texmf" "texmf/doc/x.pdf" "doc" = true :=
  (collectFiles_partition
      [.dir "texmf" [.dir "doc" [.file "x.pdf" 1], .dir "tex" [.file "x.sty" 3]]]).1
    "texmf/doc/x.pdf" (by decide)

/-! ## Package table and the categorizer pass (claim C4) -/

/-- The fields of `MpcPackageInfo` used by the table-level passes. -/
structure MpcPackageInfo where
  id : String
  displayName : String := ""
  requiredPackages : List String := []
  requiredBy : List String := []
  ctanPath : String := ""
  runFiles : List String := []
  docFiles : List String := []
  sourceFiles : List String := []
deriving Repr, DecidableEq

/-- `bool StartsWith(const string and s, const string and prefix)` from the
source: the string begins with the given characters. -/
def StartsWith (s pre : String) : Bool :=
  pre.data.isPrefixOf s.data

/-- `packageTable` is a `std::map<string, MpcPackageInfo>` whose key is
always the entry's `id`; modelled as a list of entries (in key order). -/
abbrev PackageTable := List MpcPackageInfo

/-- Mutating the table entry addressed by id `pid` through a map iterator. -/
def updatePkg (t : PackageTable) (pid : String)
    (f : MpcPackageInfo → MpcPackageInfo) : PackageTable :=
  t.map fun q => if q.id = pid then f q else q

/-- `packageTable.find(pid) != packageTable.end()`. -/
def hasPkg (t : PackageTable) (pid : String) : Bool :=
  t.any fun q => q.id == pid

/-- The warning text of the dependency-transpose loop. -/
def depWarning (req pid : String) : String :=
  "dependency problem: " ++ req ++ " is required by " ++ pid

/-- One step of the transpose loop: the edge `e = (p.id, req)`.  If a package
named `req` exists, append `p.id` to its `requiredBy`; otherwise only emit a
warning. -/
def addEdge (tw : PackageTable × List String) (e : String × String) :
    PackageTable × List String :=
  if hasPkg tw.1 e.2 then
    (updatePkg tw.1 e.2 fun q => { q with requiredBy := q.requiredBy ++ [e.1] },
      tw.2)
  else
    (tw.1, tw.2 ++ [depWarning e.2 e.1])

/-- The dependency edges of a table, in iteration order: for every package
`p` in table order, one edge `(p.id, req)` per entry of
`p.requiredPackages`.  (`requiredPackages` is never mutated by the transpose
loop, so reading them from the initial table is faithful.) -/
def edges (t : PackageTable) : List (String × String) :=
  t.flatMap fun p => p.requiredPackages.map fun req => (p.id, req)

/-- The dependency-transpose phase of the categorizer in
`PackageCreator::Run`. -/
def transposePass (t : PackageTable) : PackageTable × List String :=
  t.foldl
    (fun tw p => (p.requiredPackages.map fun req => (p.id, req)).foldl addEdge tw)
    (t, [])

/-- Modelled from the spec: `Utils::IsParentDirectoryOf` (library code not
under `src/`) — the path lies under the given directory, compared per the
DOS rule set. -/
def liesUnder (dir s : String) : Bool :=
  (dosNormalize (dir ++ "/")).data.isPrefixOf (dosNormalize s).data

/-- The `isOutlineFont` lambda of the categorize loop. -/
def isOutlineFont (s : String) : Bool :=
  liesUnder "texmf/fonts/type1" s || liesUnder "texmf/fonts/truetype" s

/-- Umbrella attachment: the two `push_back`s of the categorize loop —
append the umbrella id to the package's `requiredBy` and the package id to
the umbrella's `requiredPackages`. -/
def attach (t : PackageTable) (pid upid : String) : PackageTable :=
  updatePkg
    (updatePkg t pid fun q => { q with requiredBy := q.requiredBy ++ [upid] })
    upid fun q => { q with requiredPackages := q.requiredPackages ++ [pid] }

/-- One iteration of the categorize loop for the package addressed by
`pid`, reading the current table state. -/
def categorizeStep (t : PackageTable) (pid : String) : PackageTable :=
  match t.find? fun q => q.id == pid with
  | none => t
  | some pkg =>
    if pkg.requiredBy.isEmpty then
      if hasPkg t "_miktex-latex-packages"
          && StartsWith pkg.ctanPath "/macros/latex/contrib/" then
        attach t pid "_miktex-latex-packages"
      else if hasPkg t "_miktex-fonts-type1"
          && StartsWith pkg.ctanPath "/fonts/"
          && pkg.runFiles.any isOutlineFont then
        attach t pid "_miktex-fonts-type1"
      else t
    else t

/-- The umbrella-attachment phase: iterate over the table's keys in order
(the key set never changes), reading the mutated state. -/
def categorizePass (t : PackageTable) : PackageTable :=
  (t.map fun p => p.id).foldl categorizeStep t

/-- The whole categorizer pass: transpose, then umbrella attachment. -/
def categorizer (t : PackageTable) : PackageTable × List String :=
  (categorizePass (transposePass t).1, (transposePass t).2)

/-- `required_by` is the transpose of `required_packages` on the table. -/
def Transposed (t : PackageTable) : Prop :=
  ∀ p ∈ t, ∀ q ∈ t, q.id ∈ p.requiredPackages ↔ p.id ∈ q.requiredBy

/-- Correspondence between a table processed by a list of edges and the
original table. -/
def EdgeShape (es : List (String × String)) (q' q : MpcPackageInfo) : Prop :=
  q'.id = q.id ∧ q'.requiredPackages = q.requiredPackages ∧
    ∀ x, x ∈ q'.requiredBy ↔ x ∈ q.requiredBy ∨ (x, q.id) ∈ es

theorem forall2_of_map {α : Type} {f : α → α} {S : α → α → Prop} :
    ∀ l : List α, (∀ a ∈ l, S (f a) a) → List.Forall₂ S (l.map f) l
  | [], _ => List.Forall₂.nil
  | a :: l, h =>
    List.Forall₂.cons (h a (List.mem_cons_self a l))
      (forall2_of_map l fun b hb => h b (List.mem_cons_of_mem a hb))

theorem forall2_refl_of {α : Type} {S : α → α → Prop} :
    ∀ l : List α, (∀ a ∈ l, S a a) → List.Forall₂ S l l
  | [], _ => List.Forall₂.nil
  | a :: l, h =>
    List.Forall₂.cons (h a (List.mem_cons_self a l))
      (forall2_refl_of l fun b hb => h b (List.mem_cons_of_mem a hb))

theorem forall2_trans_of {α : Type} {R S T : α → α → Prop}
    (h : ∀ a b c, R a b → S b c → T a c) :
    ∀ {l₁ l₂ l₃ : List α}, List.Forall₂ R l₁ l₂ → List.Forall₂ S l₂ l₃ →
      List.Forall₂ T l₁ l₃
  | _, _, _, List.Forall₂.nil, List.Forall₂.nil => List.Forall₂.nil
  | _, _, _, List.Forall₂.cons hab hr, List.Forall₂.cons hbc hs =>
    List.Forall₂.cons (h _ _ _ hab hbc) (forall2_trans_of h hr hs)

theorem forall2_mem_left {α : Type} {R : α → α → Prop} :
    ∀ {l₁ l₂ : List α}, List.Forall₂ R l₁ l₂ → ∀ a ∈ l₁, ∃ b ∈ l₂, R a b
  | _, _, List.Forall₂.cons hab hr, a, ha => by
    rcases List.mem_cons.mp ha with ha | ha
    · exact ⟨_, List.mem_cons_self _ _, ha ▸ hab⟩
    · rcases forall2_mem_left hr a ha with ⟨b, hb, hR⟩
      exact ⟨b, List.mem_cons_of_mem _ hb, hR⟩

theorem hasPkg_iff (t : PackageTable) (pid : String) :
    hasPkg t pid = true ↔ ∃ q ∈ t, q.id = pid := by
  simp [hasPkg, List.any_eq_true]

theorem addEdge_step_spec (t : PackageTable) (w : List String)
    (e : String × String) :
    List.Forall₂
      (fun q' q => q'.id = q.id ∧ q'.requiredPackages = q.requiredPackages ∧
        ∀ x, x ∈ q'.requiredBy ↔ x ∈ q.requiredBy ∨ (x, q.id) = e)
      (addEdge (t, w) e).1 t := by
  by_cases h : hasPkg t e.2 = true
  · simp only [addEdge, h, if_true]
    apply forall2_of_map
    intro q _
    by_cases hid : q.id = e.2
    · rw [if_pos hid]
      refine ⟨rfl, rfl, fun x => ?_⟩
      simp [List.mem_append, Prod.ext_iff, hid]
    · rw [if_neg hid]
      refine ⟨rfl, rfl, fun x => ?_⟩
      simp [Prod.ext_iff, hid]
  · simp only [addEdge, h, Bool.false_eq_true, if_false]
    apply forall2_refl_of
    intro q hq
    refine ⟨rfl, rfl, fun x => ?_⟩
    have : ¬(q.id = e.2) := fun hc => h ((hasPkg_iff t e.2).mpr ⟨q, hq, hc⟩)
    simp [Prod.ext_iff, this]

theorem addEdge_fold_spec :
    ∀ (es : List (String × String)) (t : PackageTable) (w : List String),
      List.Forall₂ (EdgeShape es) (es.foldl addEdge (t, w)).1 t
  | [], t, w => by
    apply forall2_refl_of
    intro q _
    exact ⟨rfl, rfl, fun x => by simp [EdgeShape]⟩
  | e :: es, t, w => by
    have ih := addEdge_fold_spec es (addEdge (t, w) e).1 (addEdge (t, w) e).2
    rw [Prod.mk.eta] at ih
    have hstep := addEdge_step_spec t w e
    rw [List.foldl_cons]
    refine forall2_trans_of ?_ ih hstep
    intro a b c hab hbc
    obtain ⟨hid1, hrp1, hrb1⟩ := hab
    obtain ⟨hid2, hrp2, hrb2⟩ := hbc
    refine ⟨hid1.trans hid2, hrp1.trans hrp2, fun x => ?_⟩
    rw [hrb1 x, hrb2 x, hid2, List.mem_cons]
    tauto

theorem foldl_flat {α β γ : Type} (f : γ → β → γ) :
    ∀ (L : List α) (g : α → List β) (init : γ),
      L.foldl (fun acc p => (g p).foldl f acc) init = (L.flatMap g).foldl f init
  | [], _, _ => rfl
  | a :: L, g, init => by
    rw [List.flatMap_cons, List.foldl_append, List.foldl_cons]
    exact foldl_flat f L g ((g a).foldl f init)

theorem mem_edges (t : PackageTable) (x y : String) :
    (x, y) ∈ edges t ↔ ∃ p ∈ t, p.id = x ∧ y ∈ p.requiredPackages := by
  simp only [edges, List.mem_flatMap, List.mem_map, Prod.mk.injEq]
  constructor
  · rintro ⟨p, hp, req, hreq, hid, hy⟩
    exact ⟨p, hp, hid, hy ▸ hreq⟩
  · rintro ⟨p, hp, hid, hy⟩
    exact ⟨p, hp, y, hy, hid, rfl⟩

theorem transposePass_spec (t : PackageTable) :
    List.Forall₂ (EdgeShape (edges t)) (transposePass t).1 t := by
  have h : transposePass t = (edges t).foldl addEdge (t, []) := by
    unfold transposePass edges
    exact foldl_flat addEdge t _ (t, [])
  rw [h]
  exact addEdge_fold_spec (edges t) t []

theorem transposePass_transposed (t : PackageTable)
    (hnodup : (t.map fun p => p.id).Nodup)
    (hrb : ∀ p ∈ t, p.requiredBy = []) :
    Transposed (transposePass t).1 := by
  intro p' hp' q' hq'
  obtain ⟨p, hp, hpid, hprp, _⟩ := forall2_mem_left (transposePass_spec t) p' hp'
  obtain ⟨q, hq, hqid, _, hqrb⟩ := forall2_mem_left (transposePass_spec t) q' hq'
  rw [hpid, hqid, hprp, hqrb p.id, hrb q hq, mem_edges]
  simp only [List.not_mem_nil, false_or]
  constructor
  · intro hmem
    exact ⟨p, hp, rfl, hmem⟩
  · rintro ⟨r, hr, hrid, hmem⟩
    have : r = p := List.inj_on_of_nodup_map hnodup hr hp hrid
    exact this ▸ hmem

theorem attach_shape (t : PackageTable) (pid upid : String) :
    List.Forall₂ (fun q' q => q'.id = q.id ∧
      (∀ x, x ∈ q'.requiredPackages ↔
          x ∈ q.requiredPackages ∨ (q.id = upid ∧ x = pid)) ∧
      (∀ x, x ∈ q'.requiredBy ↔ x ∈ q.requiredBy ∨ (q.id = pid ∧ x = upid)))
      (attach t pid upid) t := by
  have step1 : List.Forall₂ (fun q' q => q'.id = q.id ∧
      q'.requiredPackages = q.requiredPackages ∧
      ∀ x, x ∈ q'.requiredBy ↔ x ∈ q.requiredBy ∨ (q.id = pid ∧ x = upid))
      (updatePkg t pid fun q => { q with requiredBy := q.requiredBy ++ [upid] })
      t := by
    unfold updatePkg
    apply forall2_of_map
    intro q _
    by_cases hid : q.id = pid
    · rw [if_pos hid]
      refine ⟨rfl, rfl, fun x => ?_⟩
      simp [List.mem_append, hid]
    · rw [if_neg hid]
      refine ⟨rfl, rfl, fun x => ?_⟩
      simp [hid]
  have step2 : List.Forall₂ (fun q' q => q'.id = q.id ∧
      (∀ x, x ∈ q'.requiredPackages ↔
          x ∈ q.requiredPackages ∨ (q.id = upid ∧ x = pid)) ∧
      q'.requiredBy = q.requiredBy)
      (updatePkg
        (updatePkg t pid fun q => { q with requiredBy := q.requiredBy ++ [upid] })
        upid fun q => { q with requiredPackages := q.requiredPackages ++ [pid] })
      (updatePkg t pid fun q => { q with requiredBy := q.requiredBy ++ [upid] }) := by
    conv in updatePkg _ upid _ => unfold updatePkg
    apply forall2_of_map
    intro q _
    by_cases hid : q.id = upid
    · rw [if_pos hid]
      refine ⟨rfl, fun x => ?_, rfl⟩
      simp [List.mem_append, hid]
    · rw [if_neg hid]
      refine ⟨rfl, fun x => ?_, rfl⟩
      simp [hid]
  refine forall2_trans_of ?_ step2 step1
  intro a b c hab hbc
  obtain ⟨hid1, hrp1, hrb1⟩ := hab
  obtain ⟨hid2, hrp2, hrb2⟩ := hbc
  refine ⟨hid1.trans hid2, fun x => ?_, fun x => ?_⟩
  · rw [hrp1 x, hrp2, hid2]
  · rw [hrb1, hrb2 x]

theorem attach_transposed (t : PackageTable) (pid upid : String)
    (h : Transposed t) : Transposed (attach t pid upid) := by
  intro p' hp' q' hq'
  obtain ⟨p, hp, hidp, hrpp, hrbp⟩ :=
    forall2_mem_left (attach_shape t pid upid) p' hp'
  obtain ⟨q, hq, hidq, hrpq, hrbq⟩ :=
    forall2_mem_left (attach_shape t pid upid) q' hq'
  rw [hidq, hidp, hrpp q.id, hrbq p.id, ← h p hp q hq]
  tauto

theorem categorizeStep_transposed (t : PackageTable) (pid : String)
    (h : Transposed t) : Transposed (categorizeStep t pid) := by
  unfold categorizeStep
  cases t.find? fun q => q.id == pid with
  | none => exact h
  | some pkg =>
    dsimp only
    split
    · split
      · exact attach_transposed t pid _ h
      · split
        · exact attach_transposed t pid _ h
        · exact h
    · exact h

theorem foldl_categorizeStep_transposed :
    ∀ (ids : List String) (t : PackageTable), Transposed t →
      Transposed (ids.foldl categorizeStep t)
  | [], _, h => h
  | pid :: ids, t, h =>
    foldl_categorizeStep_transposed ids (categorizeStep t pid)
      (categorizeStep_transposed t pid h)

theorem addEdge_ids (tw : PackageTable × List String) (e : String × String) :
    (addEdge tw e).1.map (fun q => q.id) = tw.1.map fun q => q.id := by
  unfold addEdge
  split
  · simp only [updatePkg, List.map_map]
    apply List.map_congr_left
    intro q _
    by_cases hid : q.id = e.2 <;> simp [hid]
  · rfl

theorem hasPkg_eq_mem_map (t : PackageTable) (y : String) :
    hasPkg t y = true ↔ y ∈ t.map fun q => q.id := by
  rw [hasPkg_iff]
  simp [List.mem_map]

theorem addEdge_hasPkg (tw : PackageTable × List String) (e : String × String)
    (y : String) : hasPkg (addEdge tw e).1 y = hasPkg tw.1 y := by
  have h1 := hasPkg_eq_mem_map (addEdge tw e).1 y
  have h2 := hasPkg_eq_mem_map tw.1 y
  rw [addEdge_ids] at h1
  cases hb : hasPkg tw.1 y
  · cases ha : hasPkg (addEdge tw e).1 y
    · rfl
    · exact absurd (h2.mpr (h1.mp ha)) (by rw [hb]; exact Bool.false_ne_true)
  · exact h1.mpr (h2.mp hb)

theorem addEdge_fold_warn_subset :
    ∀ (es : List (String × String)) (tw : PackageTable × List String),
      ∀ x ∈ tw.2, x ∈ (es.foldl addEdge tw).2
  | [], _, _, hx => hx
  | e :: es, tw, x, hx => by
    rw [List.foldl_cons]
    apply addEdge_fold_warn_subset es
    unfold addEdge
    split
    · exact hx
    · exact List.mem_append_left _ hx

theorem addEdge_fold_warn :
    ∀ (es : List (String × String)) (t : PackageTable) (w : List String)
      (x y : String), (x, y) ∈ es → hasPkg t y = false →
      depWarning y x ∈ (es.foldl addEdge (t, w)).2
  | e :: es, t, w, x, y, hmem, hno => by
    rw [List.foldl_cons]
    rcases List.mem_cons.mp hmem with hmem | hmem
    · subst hmem
      apply addEdge_fold_warn_subset es (addEdge (t, w) (x, y))
      simp only [addEdge, hno, Bool.false_eq_true, if_false]
      exact List.mem_append_right _ (List.mem_singleton.mpr rfl)
    · have hno2 : hasPkg (addEdge (t, w) e).1 y = false := by
        rw [addEdge_hasPkg]; exact hno
      have := addEdge_fold_warn es (addEdge (t, w) e).1 (addEdge (t, w) e).2
        x y hmem hno2
      rw [Prod.mk.eta] at this
      exact this

/-- C4: after the categorizer pass (dependency transpose, then umbrella
attachment) over a table with unique ids and freshly collected (empty)
`requiredBy` lists, membership of `q.id` in `p.requiredPackages` is
equivalent to membership of `p.id` in `q.requiredBy`, for all packages of
the resulting table; and a required id that names no package in the table
only emits a warning (the run continues and produces the table). -/
theorem categorizer_transposed (t : PackageTable)
    (hnodup : (t.map fun p => p.id).Nodup)
    (hrb : ∀ p ∈ t, p.requiredBy = []) :
    (∀ p ∈ (categorizer t).1, ∀ q ∈ (categorizer t).1,
        q.id ∈ p.requiredPackages ↔ p.id ∈ q.requiredBy) ∧
    (∀ p ∈ t, ∀ req ∈ p.requiredPackages, hasPkg t req = false →
        depWarning req p.id ∈ (categorizer t).2) := by
  constructor
  · exact foldl_categorizeStep_transposed _ (transposePass t).1
      (transposePass_transposed t hnodup hrb)
  · intro p hp req hreq hno
    have hedge : (p.id, req) ∈ edges t := (mem_edges t p.id req).mpr ⟨p, hp, rfl, hreq⟩
    have h : transposePass t = (edges t).foldl addEdge (t, []) := by
      unfold transposePass edges
      exact foldl_flat addEdge t _ (t, [])
    show depWarning req p.id ∈ (transposePass t).2
    rw [h]
    exact addEdge_fold_warn (edges t) t [] p.id req hedge hno

/-- Witness for C4 on a concrete two-package table with one resolvable and
one dangling dependency. -/
theorem categorizer_transposed_witness :
    ("beta" ∈ ({ id := "alpha", requiredPackages := ["beta", "gamma"] } :
        MpcPackageInfo).requiredPackages ↔
      "alpha" ∈ ({ id := "beta", requiredBy := ["alpha"] } :
        MpcPackageInfo).requiredBy) ∧
    depWarning "gamma" "alpha" ∈
      (categorizer [{ id := "alpha", requiredPackages := ["beta", "gamma"] },
        { id := "beta" }]).2 := by
  refine ⟨?_, ?_⟩
  · exact (categorizer_transposed
        [{ id := "alpha", requiredPackages := ["beta", "gamma"] },
          { id := "beta" }] (by decide) (by decide)).1
      { id := "alpha", requiredPackages := ["beta", "gamma"] } (by decide)
      { id := "beta", requiredBy := ["alpha"] } (by decide)
  · exact (categorizer_transposed
        [{ id := "alpha", requiredPackages := ["beta", "gamma"] },
          { id := "beta" }] (by decide) (by decide)).2
      { id := "alpha", requiredPackages := ["beta", "gamma"] } (by decide)
      "gamma" (by decide) (by decide)

/-! ## Archive reconciler (`CreateArchiveFile`, claim C2) -/

/-- `enum class ArchiveFileType` from the source. -/
inductive ArchiveFileType where
  | None
  | MSCab
  | TarBzip2
  | Zip
  | Tar
  | TarLzma
deriving Repr, DecidableEq

/-- The repository facts consulted by `CreateArchiveFile` for one package:
which archive files exist, what the repository manifest records, the
package's TDS digest, and the package manifest embedded in the existing
archive (read only on the recovery path). -/
structure ArchiveInput where
  existsCab : Bool
  existsBz2 : Bool
  existsLzma : Bool
  manifestMD5 : Option FileDigest
  manifestTimePackaged : Option Int
  digest : FileDigest
  embeddedDigest : FileDigest
  embeddedTimePackaged : Int
  initialMtime : Int
  programStartTime : Int
deriving Repr, DecidableEq

/-- The observable outcome of `CreateArchiveFile`: the reuse flag, the
adopted `timePackaged`, whether the archiver child processes ran, whether
the embedded package manifest was extracted, whether the archive content
was rewritten, the archive file's last-write time after the final
`File::SetTimes` call, and the resulting archive type.  (The final
`File::GetSize` and `MD5::FromFile` are pure reads and are not modelled.) -/
structure ArchiveResult where
  reuseExisting : Bool
  timePackaged : Int
  archiverInvoked : Bool
  manifestExtracted : Bool
  archiveContentRewritten : Bool
  archiveMtime : Int
  archiveFileType : ArchiveFileType
deriving Repr, DecidableEq

/-- `PackageCreator::HavePackageArchiveFile`: check `<id>.cab`,
`<id>.tar.bz2` and `<id>.tar.lzma` in that order; every existing file
overwrites the previous choice, so the last match wins. -/
def HavePackageArchiveFile (i : ArchiveInput) : ArchiveFileType :=
  let t1 := if i.existsCab then ArchiveFileType.MSCab else ArchiveFileType.None
  let t2 := if i.existsBz2 then ArchiveFileType.TarBzip2 else t1
  if i.existsLzma then ArchiveFileType.TarLzma else t2

/-- The manifest test used twice by `CreateArchiveFile`: the manifest
records an `MD5` equal to the package digest and a `TimePackaged`; returns
that `TimePackaged`. -/
def manifestMatch (i : ArchiveInput) : Option Int :=
  match i.manifestMD5, i.manifestTimePackaged with
  | some md5, some tp => if md5 = i.digest then some tp else none
  | _, _ => none

/-- `PackageCreator::CreateArchiveFile`: reuse the existing archive when the
manifest agrees with the package digest (or, failing that, when the
package manifest embedded in the archive does); otherwise rebuild with the
default archive type (TarLzma), keeping the manifest time stamp when the
digest matches and the program start time otherwise.  In all cases the
final `File::SetTimes` sets the archive's last-write time to the adopted
`timePackaged` (the creation time is touched only on new builds). -/
def CreateArchiveFile (i : ArchiveInput) : ArchiveResult :=
  if HavePackageArchiveFile i = ArchiveFileType.None then
    { reuseExisting := false
      timePackaged := (manifestMatch i).getD i.programStartTime
      archiverInvoked := true
      manifestExtracted := false
      archiveContentRewritten := true
      archiveMtime := (manifestMatch i).getD i.programStartTime
      archiveFileType := ArchiveFileType.TarLzma }
  else
    match manifestMatch i with
    | some tp =>
      { reuseExisting := true
        timePackaged := tp
        archiverInvoked := false
        manifestExtracted := false
        archiveContentRewritten := false
        archiveMtime := tp
        archiveFileType := HavePackageArchiveFile i }
    | none =>
      if i.embeddedDigest = i.digest then
        { reuseExisting := true
          timePackaged := i.embeddedTimePackaged
          archiverInvoked := false
          manifestExtracted := true
          archiveContentRewritten := false
          archiveMtime := i.embeddedTimePackaged
          archiveFileType := HavePackageArchiveFile i }
      else
        { reuseExisting := false
          timePackaged := (manifestMatch i).getD i.programStartTime
          archiverInvoked := true
          manifestExtracted := true
          archiveContentRewritten := true
          archiveMtime := (manifestMatch i).getD i.programStartTime
          archiveFileType := ArchiveFileType.TarLzma }

/-- C2 counterexample: repository contains `foo.tar.lzma`, the manifest
records `MD5` equal to the package digest and `TimePackaged = 1700000000`,
and the existing archive's last-write time is `123`.  The reconciler
reuses the archive and does not invoke the archiver, but it does not leave
the archive file untouched: `File::SetTimes` runs in the reuse path too and
sets the file's last-write time to the adopted `TimePackaged`. -/
theorem CreateArchiveFile_counterexample :
    (CreateArchiveFile
        { existsCab := false, existsBz2 := false, existsLzma := true,
          manifestMD5 := some [7], manifestTimePackaged := some 1700000000,
          digest := [7], embeddedDigest := [7], embeddedTimePackaged := 0,
          initialMtime := 123, programStartTime := 999 }).reuseExisting = true ∧
    (CreateArchiveFile
        { existsCab := false, existsBz2 := false, existsLzma := true,
          manifestMD5 := some [7], manifestTimePackaged := some 1700000000,
          digest := [7], embeddedDigest := [7], embeddedTimePackaged := 0,
          initialMtime := 123, programStartTime := 999 }).archiverInvoked = false ∧
    (CreateArchiveFile
        { existsCab := false, existsBz2 := false, existsLzma := true,
          manifestMD5 := some [7], manifestTimePackaged := some 1700000000,
          digest := [7], embeddedDigest := [7], embeddedTimePackaged := 0,
          initialMtime := 123, programStartTime := 999 }).archiveMtime ≠
      ({ existsCab := false, existsBz2 := false, existsLzma := true,
          manifestMD5 := some [7], manifestTimePackaged := some 1700000000,
          digest := [7], embeddedDigest := [7], embeddedTimePackaged := 0,
          initialMtime := 123, programStartTime := 999 } : ArchiveInput).initialMtime := by
  refine ⟨by decide, by decide, by decide⟩

/-- C2 (amended): when an archive file for the package exists (`.cab`,
`.tar.bz2`, `.tar.lzma`, checked in that order with the last match winning)
and the repository manifest records an `MD5` equal to the package's TDS
digest together with a parseable `TimePackaged`, the reconciler sets
`reuse`, adopts the manifest's `TimePackaged`, invokes no archiver and
leaves the archive content unchanged — but it sets the archive file's
last-write time to the adopted `TimePackaged`. -/
theorem CreateArchiveFile_reuse (i : ArchiveInput) (tp : Int)
    (hex : i.existsCab = true ∨ i.existsBz2 = true ∨ i.existsLzma = true)
    (hmd5 : i.manifestMD5 = some i.digest)
    (htp : i.manifestTimePackaged = some tp) :
    (CreateArchiveFile i).reuseExisting = true ∧
    (CreateArchiveFile i).timePackaged = tp ∧
    (CreateArchiveFile i).archiverInvoked = false ∧
    (CreateArchiveFile i).manifestExtracted = false ∧
    (CreateArchiveFile i).archiveContentRewritten = false ∧
    (CreateArchiveFile i).archiveMtime = tp ∧
    (CreateArchiveFile i).archiveFileType = HavePackageArchiveFile i ∧
    (i.existsLzma = true → HavePackageArchiveFile i = ArchiveFileType.TarLzma) := by
  have hmm : manifestMatch i = some tp := by
    rw [manifestMatch, hmd5, htp]
    simp
  have hfound : ¬(HavePackageArchiveFile i = ArchiveFileType.None) := by
    unfold HavePackageArchiveFile
    rcases hex with h | h | h <;> rw [h] <;>
      cases i.existsLzma <;> cases i.existsBz2 <;> cases i.existsCab <;> simp
  rw [CreateArchiveFile, if_neg hfound, hmm]
  refine ⟨rfl, rfl, rfl, rfl, rfl, rfl, rfl, fun hlz => ?_⟩
  unfold HavePackageArchiveFile
  rw [hlz]
  simp

/-- Witness for C2's amended theorem at a concrete input. -/
theorem CreateArchiveFile_reuse_witness :
    (CreateArchiveFile
        { existsCab := false, existsBz2 := false, existsLzma := true,
          manifestMD5 := some [7], manifestTimePackaged := some 1700000000,
          digest := [7], embeddedDigest := [7], embeddedTimePackaged := 0,
          initialMtime := 123, programStartTime := 999 }).reuseExisting = true ∧
    (CreateArchiveFile
        { existsCab := false, existsBz2 := false, existsLzma := true,
          manifestMD5 := some [7], manifestTimePackaged := some 1700000000,
          digest := [7], embeddedDigest := [7], embeddedTimePackaged := 0,
          initialMtime := 123, programStartTime := 999 }).timePackaged = 1700000000 :=
  ⟨(CreateArchiveFile_reuse _ 1700000000 (Or.inr (Or.inr rfl)) rfl rfl).1,
    (CreateArchiveFile_reuse _ 1700000000 (Or.inr (Or.inr rfl)) rfl rfl).2.1⟩

/-! ## Repository information file (`CreateRepositoryInformationFile`,
claims C5 and C6) -/

/-- `static_cast<int>(dirEntry.size)`: two's-complement wrap of an unsigned
size to a signed 32-bit value. -/
def toInt32 (n : Nat) : Int :=
  if n % 2 ^ 32 < 2 ^ 31 then ((n % 2 ^ 32 : Nat) : Int)
  else ((n % 2 ^ 32 : Nat) : Int) - 2 ^ 32

/-- One line of the repository listing fed to the `lstdigest` builder:
`<name>;<static_cast<int>(size)>` and a newline. -/
def lstLine (name : String) (size : Nat) : String :=
  name ++ ";" ++ toString (toInt32 size) ++ "\n"

/-- The spec's listing line as written: `<name>;<size>` and a newline, with
the size printed as-is. -/
def specLstLine (name : String) (size : Nat) : String :=
  name ++ ";" ++ toString size ++ "\n"

/-- The byte stream fed to the `lstdigest` `MD5Builder`: the listing lines
in sorted order, concatenated (`std::sort` on byte strings; the digest is
identified with the stream). -/
def lstDigestStream (listing : List (String × Nat)) : String :=
  String.join
    (List.insertionSort (fun a b => a ≤ b) (listing.map fun e => lstLine e.1 e.2))

/-- The `[repository]` section of `pr.ini`. -/
structure PrIni where
  date : Int
  version : Int
  lstdigest : String
  numpkg : Nat
  lastupd : String
  relstate : String
deriving Repr, DecidableEq

/-- The `TimePackaged` of each package, read from the repository manifest;
a missing value becomes `InvalidTimeT` (`static_cast<time_t>(-1)`). -/
def packagedTimes (table : List (String × Option Int)) : List (String × Int) :=
  table.map fun p => (p.1, p.2.getD (-1))

/-- `PackagedOnReversed` orders packages by descending `timePackaged`
(`pi1.timePackaged >= pi2.timePackaged`); the populated `std::set` is
modelled as a descending insertion sort of the `(id, timePackaged)`
pairs. -/
def packagedOnReversed (pkgs : List (String × Int)) : List (String × Int) :=
  List.insertionSort (fun a b => a.2 ≥ b.2) pkgs

/-- The `lastupd` loop: the ids of the first 20 elements of the descending
set. -/
def lastupdIds (pkgs : List (String × Int)) : List String :=
  ((packagedOnReversed pkgs).take 20).map fun p => p.1

/-- `PackageCreator::CreateRepositoryInformationFile`: write `pr.ini` with a
placeholder `lstdigest` (the digest of the empty stream), then list the
repository directory, sort the `<name>;<size>` lines, digest them, and
write `pr.ini` again with the real `lstdigest`.  Returns the sequence of
writes.  `listing` is the directory content at the moment of the
computation (after the first write). -/
def CreateRepositoryInformationFile (programStartTime : Int)
    (numberOfPackages : Nat) (table : List (String × Option Int))
    (relState : String) (listing : List (String × Nat)) : List PrIni :=
  let lastupd := String.intercalate " " (lastupdIds (packagedTimes table))
  let days := Int.tdiv (programStartTime - 946681200) (60 * 60 * 24)
  let firstWrite : PrIni :=
    { date := programStartTime, version := days, lstdigest := "",
      numpkg := numberOfPackages, lastupd := lastupd, relstate := relState }
  [firstWrite, { firstWrite with lstdigest := lstDigestStream listing }]

instance : IsTotal (String × Int) fun a b => a.2 ≥ b.2 :=
  ⟨fun a b => le_total b.2 a.2⟩

instance : IsTrans (String × Int) fun a b => a.2 ≥ b.2 :=
  ⟨fun _ _ _ h1 h2 => le_trans h2 h1⟩

/-- C5 counterexample: a directory entry of size `2^31` is listed as
`big.bin;-2147483648` because the size is narrowed through
`static_cast<int>`, so the final `lstdigest` is not the digest of the
claim's `<name>;<size>` line. -/
theorem lstdigest_counterexample :
    ((CreateRepositoryInformationFile 0 1 [] "stable"
        [("big.bin", 2 ^ 31)]).getLast?).map (fun c => c.lstdigest) ≠
        some (String.join [specLstLine "big.bin" (2 ^ 31)]) ∧
    lstLine "big.bin" (2 ^ 31) = "big.bin;-2147483648\n" ∧
    specLstLine "big.bin" (2 ^ 31) = "big.bin;2147483648\n" := by
  refine ⟨by decide, by decide, by decide⟩

/-- C5 (amended): `pr.ini` is written twice by the database writer, and
after the final write its `lstdigest` equals the MD5 of the concatenation,
in ASCII-sorted order, of one line `<name>;<size>` (newline-terminated) per
directory entry present at the moment of computation, where the size is
first narrowed to a signed 32-bit value (`static_cast<int>`); the hashed
stream is the sorted permutation of exactly those lines. -/
theorem lstdigest_final (programStartTime : Int) (numberOfPackages : Nat)
    (table : List (String × Option Int)) (relState : String)
    (listing : List (String × Nat)) :
    (CreateRepositoryInformationFile programStartTime numberOfPackages table
        relState listing).length = 2 ∧
    ((CreateRepositoryInformationFile programStartTime numberOfPackages table
        relState listing).getLast?).map (fun c => c.lstdigest) =
      some (lstDigestStream listing) ∧
    List.Sorted (fun a b : String => a ≤ b)
      (List.insertionSort (fun a b => a ≤ b)
        (listing.map fun e => lstLine e.1 e.2)) ∧
    List.Perm
      (List.insertionSort (fun a b => a ≤ b)
        (listing.map fun e => lstLine e.1 e.2))
      (listing.map fun e => lstLine e.1 e.2) := by
  refine ⟨rfl, rfl, List.sorted_insertionSort _ _, List.perm_insertionSort _ _⟩

/-- C6: the `lastupd` value written to `pr.ini` (both writes carry the same
value) lists at most 20 package ids, and the `timePackaged` sequence of the
taken entries is non-increasing from first to last. -/
theorem lastupd_spec (programStartTime : Int) (numberOfPackages : Nat)
    (table : List (String × Option Int)) (relState : String)
    (listing : List (String × Nat)) :
    (∀ c ∈ CreateRepositoryInformationFile programStartTime numberOfPackages
        table relState listing,
      c.lastupd = String.intercalate " " (lastupdIds (packagedTimes table))) ∧
    (lastupdIds (packagedTimes table)).length ≤ 20 ∧
    List.Chain' (fun a b : Int => a ≥ b)
      (((packagedOnReversed (packagedTimes table)).take 20).map fun p => p.2) := by
  refine ⟨?_, ?_, ?_⟩
  · intro c hc
    rcases List.mem_cons.mp hc with h | h
    · rw [h]
    · rcases List.mem_cons.mp h with h | h
      · rw [h]
      · exact absurd h (List.not_mem_nil c)
  · calc (lastupdIds (packagedTimes table)).length
        = ((packagedOnReversed (packagedTimes table)).take 20).length :=
          List.length_map _ _
      _ ≤ 20 := by
          rw [List.length_take]
          exact min_le_left _ _
  · have hs : List.Sorted (fun a b : String × Int => a.2 ≥ b.2)
        (packagedOnReversed (packagedTimes table)) :=
      List.sorted_insertionSort _ _
    have ht : List.Pairwise (fun a b : String × Int => a.2 ≥ b.2)
        ((packagedOnReversed (packagedTimes table)).take 20) :=
      hs.sublist (List.take_sublist _ _)
    exact (List.Pairwise.map (S := fun a b : Int => a ≥ b)
      (fun p : String × Int => p.2) (fun _ _ h => h) ht).chain'

/-- Witness for C6 at a concrete package table (no hypotheses are needed;
this instantiates the statement). -/
theorem lastupd_spec_witness :
    (lastupdIds (packagedTimes
        [("a", some 5), ("b", none), ("c", some 9)])).length ≤ 20 :=
  (lastupd_spec 0 3 [("a", some 5), ("b", none), ("c", some 9)] "stable" []).2.1

/-! ## Archive format cleanup (`CleanUp`, claim C7) -/

/-- The extension of a file name: its suffix from the last dot, or none
(`PathName::GetExtension`, library code not under `src/`; modelled from the
spec's archive naming, where a `.tar.bz2` file has extension `.bz2` — the
source itself tests `HasExtension(".bz2")` on such names). -/
def lastDotSuffix (s : String) : Option String :=
  let after := (s.data.reverse.takeWhile fun c => c ≠ '.').length
  if after = s.data.length then none
  else some ⟨s.data.drop (s.data.length - after - 1)⟩

/-- `PathName::HasExtension` (library code not under `src/`): the file name
carries exactly this extension (case-insensitively). -/
def HasExtension (s ext : String) : Bool :=
  match lastDotSuffix s with
  | some e => dosNormalize e == dosNormalize ext
  | none => false

/-- `PathName::AppendExtension` (library code not under `src/`): append the
extension unless the name already carries exactly it.  Modelled from the
spec's file naming: appending `.lzma` to `files.csv` yields
`files.csv.lzma`, and appending `.tar.lzma` to `<id>` yields
`<id>.tar.lzma`. -/
def AppendExtension (s ext : String) : String :=
  if HasExtension s ext then s else s ++ ext

/-- `PackageCreator::CleanUp`: walk the repository listing; a `.cab` entry
is scheduled for deletion once per check that finds the entry with
`.tar.bz2` (resp. `.tar.lzma`) appended in the repository, and a `.bz2`
entry once the entry with `.lzma` appended is found.  Returns the files
scheduled for deletion, in order. -/
def CleanUp (listing : List String) : List String :=
  listing.foldl
    (fun acc name =>
      if HasExtension name ".cab" then
        let acc1 :=
          if listing.contains (AppendExtension name ".tar.bz2") then acc ++ [name]
          else acc
        if listing.contains (AppendExtension name ".tar.lzma") then acc1 ++ [name]
        else acc1
      else if HasExtension name ".bz2" then
        if listing.contains (AppendExtension name ".lzma") then acc ++ [name]
        else acc
      else acc)
    []

/-- C7 (code bug): with `foo.cab`, `foo.tar.bz2` and `foo.tar.lzma` all
present, `CleanUp` deletes nothing.  `AppendExtension` appends — it does
not replace the stem's extension — so the existence checks look for
`foo.cab.tar.bz2`, `foo.cab.tar.lzma` and `foo.tar.bz2.lzma`, names the
pipeline never produces; the spec's same-stem cleanup (delete `foo.cab` and
`foo.tar.bz2` once `foo.tar.lzma` exists) never fires. -/
theorem CleanUp_code_bug :
    CleanUp ["foo.cab", "foo.tar.bz2", "foo.tar.lzma"] = [] ∧
    AppendExtension "foo.cab" ".tar.bz2" = "foo.cab.tar.bz2" ∧
    AppendExtension "foo.cab" ".tar.lzma" = "foo.cab.tar.lzma" ∧
    AppendExtension "foo.tar.bz2" ".lzma" = "foo.tar.bz2.lzma" := by
  refine ⟨by decide, by decide, by decide, by decide⟩

/-! ## Package collection and list reading (claims C8, C9, C10) -/

/-- `struct PackageSpec` from the source. -/
structure PackageSpec where
  id : String := ""
  level : Char := Char.ofNat 0
  archiveFileType : ArchiveFileType := ArchiveFileType.None
deriving Repr, DecidableEq

/-- `PackageCreator::GetPackageLevel`: the level from the package list,
defaulting to the default level when the package is not listed. -/
def GetPackageLevel (packageList : List (String × PackageSpec))
    (defaultLevel : Char) (pid : String) : Char :=
  match packageList.find? fun en => en.1 == pid with
  | Option.none => defaultLevel
  | some en => en.2.level

/-- `PackageCreator::IsToBeIgnored`: level `-`. -/
def IsToBeIgnored (packageList : List (String × PackageSpec))
    (defaultLevel : Char) (pid : String) : Bool :=
  GetPackageLevel packageList defaultLevel pid == '-'

/-- One staging-root directory entry as seen by `CollectPackages`: whether
it is a directory, whether `package.ini` exists in it, the mandatory
`id`/`name` values (with the legacy `externalname` fallback folded into
`iniId`), the remaining parsed fields, and the `Files/` subtree. -/
structure StagingEntry where
  isDirectory : Bool := true
  hasPackageIni : Bool := true
  iniId : Option String := none
  iniName : Option String := none
  pkg : MpcPackageInfo := { id := "" }
  filesTree : List FSEntry := []

/-- `PackageCreator::InitializePackageInfo`: a missing `id` (and
`externalname`) or a missing `name` is a `FatalError`. -/
def InitializePackageInfo (e : StagingEntry) : Except String MpcPackageInfo :=
  match e.iniId with
  | Option.none => Except.error "Invalid package information file (id)."
  | some pid =>
    match e.iniName with
    | Option.none => Except.error "Invalid package information file (name)."
    | some nm => Except.ok { e.pkg with id := pid, displayName := nm }

/-- `PackageCreator::CollectPackage`: clear the file lists and collect the
`Files/` subtree. -/
def CollectPackage (texmfPfx : String) (pkg : MpcPackageInfo)
    (filesTree : List FSEntry) : MpcPackageInfo :=
  { pkg with
    runFiles := (CollectPackageFiles texmfPfx filesTree).runFiles,
    docFiles := (CollectPackageFiles texmfPfx filesTree).docFiles,
    sourceFiles := (CollectPackageFiles texmfPfx filesTree).sourceFiles }

/-- The duplicate warning of `CollectPackages`. -/
def alreadyCollected (pid : String) : String :=
  pid ++ " already collected."

/-- The body of the `CollectPackages` lister loop for one directory
entry. -/
def CollectPackagesStep (texmfPfx : String)
    (packageList : List (String × PackageSpec)) (defaultLevel : Char)
    (st : PackageTable × List String) (e : StagingEntry) :
    Except String (PackageTable × List String) :=
  if !e.isDirectory then Except.ok st
  else if !e.hasPackageIni then Except.ok st
  else
    match InitializePackageInfo e with
    | Except.error msg => Except.error msg
    | Except.ok pkg =>
      if IsToBeIgnored packageList defaultLevel pkg.id then Except.ok st
      else if hasPkg st.1 pkg.id then
        Except.ok (st.1, st.2 ++ [alreadyCollected pkg.id])
      else
        Except.ok (st.1 ++ [CollectPackage texmfPfx pkg e.filesTree], st.2)

/-- `PackageCreator::CollectPackages` over one staging root: a root that
does not exist contributes nothing; otherwise fold the lister loop
(`FatalError` aborts the run through `Except.error`). -/
def CollectPackages (texmfPfx : String)
    (packageList : List (String × PackageSpec)) (defaultLevel : Char)
    (root : Option (List StagingEntry)) (st : PackageTable × List String) :
    Except String (PackageTable × List String) :=
  match root with
  | Option.none => Except.ok st
  | some entries =>
    entries.foldlM (CollectPackagesStep texmfPfx packageList defaultLevel) st

/-- The duplicate warning of `ReadList`. -/
def ignoredLineWarning (ch : Char) (pid : String) (lvl : Char) : String :=
  "ignoring '" ++ String.singleton ch ++ " " ++ pid ++
    "': already marked as '" ++ String.singleton lvl ++ "'"

/-- Splitting a character list at every `;`. -/
def splitSemi : List Char → List (List Char)
  | [] => [[]]
  | c :: cs =>
    if c = ';' then [] :: splitSemi cs
    else
      match splitSemi cs with
      | t :: ts => (c :: t) :: ts
      | [] => [[c]]

/-- The `Tokenizer(lpsz, ";")` tokens: split on `;`, dropping empty
tokens. -/
def lineTokens (cs : List Char) : List String :=
  ((splitSemi cs).map fun t => String.mk t).filter fun t => t ≠ ""

/-- One line of `PackageCreator::ReadList` (the `map` overload).  Lines
reached through `@file` inclusion are modelled as already spliced into the
line sequence, so an `@` line itself contributes nothing here. -/
def readListLine (aft : ArchiveFileType)
    (st : List (String × PackageSpec) × List String) (line : String) :
    Except String (List (String × PackageSpec) × List String) :=
  match line.data with
  | [] => Except.ok st
  | ch :: cs =>
    let cs2 := cs.dropWhile fun c => c == ' ' || c == '\t'
    if cs2.isEmpty then Except.ok st
    else if ch = '@' then Except.ok st
    else if ¬(ch = 'S' ∨ ch = 'M' ∨ ch = 'L' ∨ ch = 'T' ∨ ch = '-') then
      Except.ok st
    else
      match lineTokens cs2 with
      | [] => Except.ok st
      | pid :: more =>
        match st.1.find? fun en => en.1 == pid with
        | some e0 =>
          Except.ok (st.1, st.2 ++ [ignoredLineWarning ch pid e0.2.level])
        | Option.none =>
          match more with
          | [] =>
            Except.ok (st.1 ++
              [(pid, { id := pid, level := ch, archiveFileType := aft })], st.2)
          | t :: _ =>
            if t = "MSCab" then
              Except.ok (st.1 ++ [(pid,
                { id := pid, level := ch,
                  archiveFileType := ArchiveFileType.MSCab })], st.2)
            else if t = "TarBzip2" then
              Except.ok (st.1 ++ [(pid,
                { id := pid, level := ch,
                  archiveFileType := ArchiveFileType.TarBzip2 })], st.2)
            else if t = "TarLzma" then
              Except.ok (st.1 ++ [(pid,
                { id := pid, level := ch,
                  archiveFileType := ArchiveFileType.TarLzma })], st.2)
            else Except.error "Invalid package list file."

/-- `PackageCreator::ReadList` over a line sequence. -/
def ReadList (aft : ArchiveFileType)
    (lines : List String) (st : List (String × PackageSpec) × List String) :
    Except String (List (String × PackageSpec) × List String) :=
  lines.foldlM (readListLine aft) st

/-- `packageTable[packageInfo.id] = packageInfo`:
`std::map::operator[]` assignment — replace a present entry (keeping its
position), append an absent one. -/
def mapSet (t : PackageTable) (p : MpcPackageInfo) : PackageTable :=
  if hasPkg t p.id then t.map fun q => if q.id = p.id then p else q
  else t ++ [p]

/-- The `--create-package` table assembly in `PackageCreator::Run`: after
the table is loaded from the package-manifest bundle, the package read from
the staging directory is stored under its id with `operator[]`
assignment. -/
def createPackageStore (loaded : PackageTable) (staging : MpcPackageInfo) :
    PackageTable :=
  mapSet loaded staging

/-- C8: whenever the same package id is encountered twice — a staging
directory whose id is already in the package table during collection, or a
package-list line whose id is already in the list map — a warning is
emitted, the first occurrence is kept (the table resp. map is unchanged),
the second occurrence is discarded, and the run continues over the
remaining entries with no error. -/
theorem duplicate_id_first_wins :
    (∀ (texmfPfx : String) (pl : List (String × PackageSpec)) (dl : Char)
        (st : PackageTable × List String) (e : StagingEntry)
        (rest : List StagingEntry) (pkg : MpcPackageInfo),
      e.isDirectory = true → e.hasPackageIni = true →
      InitializePackageInfo e = Except.ok pkg →
      IsToBeIgnored pl dl pkg.id = false →
      hasPkg st.1 pkg.id = true →
      CollectPackages texmfPfx pl dl (some (e :: rest)) st =
        CollectPackages texmfPfx pl dl (some rest)
          (st.1, st.2 ++ [alreadyCollected pkg.id])) ∧
    (∀ (aft : ArchiveFileType)
        (st : List (String × PackageSpec) × List String)
        (line : String) (rest : List String) (ch : Char) (cs : List Char)
        (pid : String) (more : List String) (e0 : String × PackageSpec),
      line.data = ch :: cs →
      (cs.dropWhile fun c => c == ' ' || c == '\t').isEmpty = false →
      (ch = 'S' ∨ ch = 'M' ∨ ch = 'L' ∨ ch = 'T' ∨ ch = '-') →
      lineTokens (cs.dropWhile fun c => c == ' ' || c == '\t') = pid :: more →
      st.1.find? (fun en => en.1 == pid) = some e0 →
      ReadList aft (line :: rest) st =
        ReadList aft rest
          (st.1, st.2 ++ [ignoredLineWarning ch pid e0.2.level])) := by
  constructor
  · intro texmfPfx pl dl st e rest pkg hdir hini hok hig hdup
    show (e :: rest).foldlM _ st = _
    rw [List.foldlM_cons]
    have hstep : CollectPackagesStep texmfPfx pl dl st e =
        Except.ok (st.1, st.2 ++ [alreadyCollected pkg.id]) := by
      simp only [CollectPackagesStep, hdir, hini, hok, hig, hdup,
        Bool.not_true, Bool.false_eq_true, if_false, if_true]
    rw [hstep]
    rfl
  · intro aft st line rest ch cs pid more e0 hline hne hch htoks hfound
    show (line :: rest).foldlM _ st = _
    rw [List.foldlM_cons]
    have hat : ¬(ch = '@') := by
      rcases hch with rfl | rfl | rfl | rfl | rfl <;> decide
    have hstep : readListLine aft st line =
        Except.ok (st.1, st.2 ++ [ignoredLineWarning ch pid e0.2.level]) := by
      simp only [readListLine, hline]
      rw [if_neg (by rw [hne]; exact Bool.false_ne_true),
        if_neg hat, if_neg (not_not_intro hch), htoks]
      dsimp only
      rw [hfound]
    rw [hstep]
    rfl

/-- Witness for C8 at a concrete duplicate staging directory and a concrete
duplicate package-list line. -/
theorem duplicate_id_first_wins_witness :
    CollectPackages "texmf" [] 'T'
        (some [{ isDirectory := true, hasPackageIni := true,
                 iniId := some "foo", iniName := some "Foo" }])
        ([{ id := "foo", displayName := "Foo" }], []) =
      CollectPackages "texmf" [] 'T' (some [])
        ([{ id := "foo", displayName := "Foo" }],
          [] ++ [alreadyCollected "foo"]) ∧
    ReadList ArchiveFileType.TarLzma ["S foo"]
        ([("foo", { id := "foo", level := 'T' })], []) =
      ReadList ArchiveFileType.TarLzma []
        ([("foo", { id := "foo", level := 'T' })],
          [] ++ [ignoredLineWarning 'S' "foo" 'T']) := by
  constructor
  · exact duplicate_id_first_wins.1 "texmf" [] 'T'
      ([{ id := "foo", displayName := "Foo" }], [])
      { isDirectory := true, hasPackageIni := true,
        iniId := some "foo", iniName := some "Foo" } []
      { id := "foo", displayName := "Foo" } rfl rfl rfl (by decide) (by decide)
  · exact duplicate_id_first_wins.2 ArchiveFileType.TarLzma
      ([("foo", { id := "foo", level := 'T' })], []) "S foo" [] 'S'
      (" foo").data "foo" [] ("foo", { id := "foo", level := 'T' })
      rfl (by decide) (Or.inl rfl) (by decide) (by decide)

theorem find_map_replace (p : MpcPackageInfo) :
    ∀ t : PackageTable, hasPkg t p.id = true →
      (t.map fun q => if q.id = p.id then p else q).find?
        (fun q => q.id == p.id) = some p
  | [], h => by simp [hasPkg] at h
  | q :: t, h => by
    by_cases hq : q.id = p.id
    · rw [List.map_cons, if_pos hq,
        List.find?_cons_of_pos _ (by simp)]
    · rw [List.map_cons, if_neg hq,
        List.find?_cons_of_neg _ (by simp [hq])]
      apply find_map_replace p t
      simp only [hasPkg, List.any_cons, Bool.or_eq_true, beq_iff_eq] at h
      rcases h with h | h
      · exact absurd h hq
      · exact h

theorem append_find (p : MpcPackageInfo) :
    ∀ t : PackageTable, hasPkg t p.id = false →
      (t ++ [p]).find? (fun q => q.id == p.id) = some p
  | [], _ => by
    rw [List.nil_append, List.find?_cons_of_pos _ (by simp)]
  | q :: t, h => by
    simp only [hasPkg, List.any_cons, Bool.or_eq_false_iff, beq_eq_false_iff_ne] at h
    rw [List.cons_append, List.find?_cons_of_neg _ (by simp [h.1])]
    apply append_find p t
    exact h.2

/-- C9: in `--create-package` mode the staging package replaces any same-id
package loaded from the repository bundle — the staging version wins: after
the store, the lookup for its id finds the staging package, and every
same-id entry of the resulting table is the staging package.  (In the
staging collection pass, by contrast, a second occurrence of an id is
discarded; see the duplicate handling of `CollectPackagesStep`.) -/
theorem createPackage_staging_wins (loaded : PackageTable)
    (staging : MpcPackageInfo) :
    (createPackageStore loaded staging).find?
        (fun q => q.id == staging.id) = some staging ∧
    (∀ q ∈ createPackageStore loaded staging, q.id = staging.id →
      q = staging) ∧
    (∀ st (e : StagingEntry) pkg,
      e.isDirectory = true → e.hasPackageIni = true →
      InitializePackageInfo e = Except.ok pkg →
      IsToBeIgnored [] 'T' pkg.id = false →
      hasPkg st.1 pkg.id = true →
      CollectPackagesStep "texmf" [] 'T' st e =
        Except.ok (st.1, st.2 ++ [alreadyCollected pkg.id])) := by
  refine ⟨?_, ?_, ?_⟩
  · unfold createPackageStore mapSet
    cases hb : hasPkg loaded staging.id
    · rw [if_neg (Bool.false_ne_true)]
      exact append_find staging loaded hb
    · rw [if_pos rfl]
      exact find_map_replace staging loaded hb
  · intro q hq hid
    unfold createPackageStore mapSet at hq
    cases hb : hasPkg loaded staging.id
    · rw [if_neg (by rw [hb]; exact Bool.false_ne_true)] at hq
      rcases List.mem_append.mp hq with hq | hq
      · exact absurd ((hasPkg_iff loaded staging.id).mpr ⟨q, hq, hid⟩)
          (by rw [hb]; exact Bool.false_ne_true)
      · exact List.mem_singleton.mp hq
    · rw [if_pos hb] at hq
      obtain ⟨r, hr, hre⟩ := List.mem_map.mp hq
      by_cases hrid : r.id = staging.id
      · rw [if_pos hrid] at hre
        exact hre.symm
      · rw [if_neg hrid] at hre
        exact absurd (hre ▸ hid) hrid
  · intro st e pkg hdir hini hok hig hdup
    simp only [CollectPackagesStep, hdir, hini, hok, hig, hdup,
      Bool.not_true, Bool.false_eq_true, if_false, if_true]

/-- Witness for C9: a loaded table already containing `foo` and a staging
`foo`; the staging version wins. -/
theorem createPackage_staging_wins_witness :
    (createPackageStore [{ id := "foo", displayName := "Old" }]
        { id := "foo", displayName := "New" }).find?
        (fun q => q.id == ({ id := "foo", displayName := "New" } :
          MpcPackageInfo).id) =
      some { id := "foo", displayName := "New" } :=
  (createPackage_staging_wins [{ id := "foo", displayName := "Old" }]
    { id := "foo", displayName := "New" }).1

/-- C10: `CollectPackages` silently skips a staging root that does not
exist, and a staging-root subdirectory without a `package.ini`: no error,
no warning, and the package table is unchanged by that entry. -/
theorem collectPackages_silent_skips :
    (∀ (texmfPfx : String) (pl : List (String × PackageSpec)) (dl : Char)
        (st : PackageTable × List String),
      CollectPackages texmfPfx pl dl Option.none st = Except.ok st) ∧
    (∀ (texmfPfx : String) (pl : List (String × PackageSpec)) (dl : Char)
        (st : PackageTable × List String) (e : StagingEntry)
        (rest : List StagingEntry),
      e.isDirectory = true → e.hasPackageIni = false →
      CollectPackages texmfPfx pl dl (some (e :: rest)) st =
        CollectPackages texmfPfx pl dl (some rest) st) := by
  constructor
  · intro _ _ _ _
    rfl
  · intro texmfPfx pl dl st e rest hdir hini
    show (e :: rest).foldlM _ st = _
    rw [List.foldlM_cons]
    have hstep : CollectPackagesStep texmfPfx pl dl st e = Except.ok st := by
      simp only [CollectPackagesStep, hdir, hini, Bool.not_true, Bool.not_false,
        Bool.false_eq_true, if_false, if_true]
    rw [hstep]
    rfl

/-- Witness for C10 at a concrete missing root and a concrete subdirectory
without `package.ini`. -/
theorem collectPackages_silent_skips_witness :
    CollectPackages "texmf" [] 'T' Option.none (([] : PackageTable), []) =
      Except.ok (([] : PackageTable), []) ∧
    CollectPackages "texmf" [] 'T'
        (some [{ isDirectory := true, hasPackageIni := false }])
        (([] : PackageTable), []) =
      CollectPackages "texmf" [] 'T' (some []) (([] : PackageTable), []) :=
  ⟨collectPackages_silent_skips.1 "texmf" [] 'T' ([], []),
    collectPackages_silent_skips.2 "texmf" [] 'T' ([], [])
      { isDirectory := true, hasPackageIni := false } [] rfl rfl⟩

end Mpc
